import Mathlib

/-!
# Verification of the VVToolkit test-case validation engine

Shallow embedding of the validation, execution, sequencing and persistence
logic of `src/DataFields.py` and `src/tools/ParallelExecution.py`.

Conventions of the embedding:
* Python machine integers are `Int`; Python floats are modelled exactly, as
  `PyFloat` (finite values carried as rationals, plus infinities and NaN);
  rounding of decimal literals to binary64 is not modelled, which is exact on
  every value appearing in the theorems below.
* Fallible Python code (uncaught exceptions) is modelled with `Option`/`Except`
  or an explicit error component.
* External effects (spawned processes, wall-clock times, the file system,
  background jobs) are passed in as explicit parameters.
-/

/-- The `TestResult` integer constants of `DataFields.py`
(`NOTRUN=0, OK=1, ERROR=2, UNDEFINED=3, NOT_ALL_OK=4`). -/
inductive TestResult where
  | NOTRUN
  | OK
  | ERROR
  | UNDEFINED
  | NOT_ALL_OK
deriving DecidableEq, Repr, Inhabited

/-- The integer value each `TestResult` constant has in the source. -/
def TestResult.toInt : TestResult → Int
  | .NOTRUN => 0
  | .OK => 1
  | .ERROR => 2
  | .UNDEFINED => 3
  | .NOT_ALL_OK => 4

/-- In `ValidationCommand.validate` the local `currentTestResult` is
dynamically typed: it holds a `bool` in the ordinary branches but the integer
`TestResult.ERROR` in the unknown-operator branch.  This sum type records
exactly which of the two it holds. -/
inductive PyBoolish where
  | ofBool (b : Bool)
  | ofResult (t : TestResult)
deriving DecidableEq, Repr

/-- Python truthiness of the dynamically typed `currentTestResult`:
a `bool` is its own truth value, an integer is truthy iff nonzero.  This is
the semantics of the source line
`currentTestResult = TestResult.OK if currentTestResult else TestResult.ERROR`. -/
def PyBoolish.truthy : PyBoolish → Bool
  | .ofBool b => b
  | .ofResult t => t.toInt != 0

/-- The `ResultCommand` dataclass (one iteration's captured record).  `returnCode` defaults
to Python `None`, hence `Option Int`.  The dataclass marks `executionTime`,
`timeOfExecution` and `result` with `compare=False`. -/
structure ResultCommand where
  output : String := ""
  returnCode : Option Int := none
  executionTime : Rat := 0
  timeOfExecution : String := ""
  result : TestResult := .NOTRUN
deriving DecidableEq, Repr, Inhabited

/-- Dataclass equality of `ResultCommand`: only the fields with
`compare=True`, i.e. `(output, returnCode)`, take part. -/
def rcEq (a b : ResultCommand) : Bool :=
  a.output == b.output && a.returnCode == b.returnCode

/-- The `Operation.SAME` constant of the source. -/
def Operation.SAME : Int := 0

/-- The `Operation.COMPARISON` constant of the source. -/
def Operation.COMPARISON : Int := 1

/-- The `ValidationCommand` dataclass (the rule attached to an item). -/
structure ValidationCommand where
  operation : Int := Operation.SAME
  operator : String := "=="
  operatorVal : String := ""
deriving DecidableEq, Repr, Inhabited

/-- The class-level list `ValidationCommand.operators` of the source. -/
def ValidationCommand.operators : List String :=
  ["==", "<>", "<", ">", "<=", ">=", "contain", "not contain"]

/-! ## A model of the Python `int()` and `float()` string conversions

`int(s)` / `float(s)` accept optional surrounding ASCII whitespace, an
optional sign, and digit runs in which single underscores may separate
digits.  `float` additionally accepts a fractional part, an exponent and the
special spellings `inf`, `infinity` and `nan` (case-insensitively).
Non-ASCII digits are not modelled. -/

/-- ASCII whitespace accepted (and stripped) by Python numeric conversion. -/
def isPyWs (c : Char) : Bool :=
  c == ' ' || c == '\t' || c == '\n' || c == '\r' || c == '\x0b' || c == '\x0c'

/-- Strip leading and trailing whitespace from a character list. -/
def trimWs (l : List Char) : List Char :=
  ((l.dropWhile isPyWs).reverse.dropWhile isPyWs).reverse

/-- Continuation of a digit run: further digits, with single underscores
allowed only directly between two digits.  Returns the digits with
underscores removed, or `none` if malformed. -/
def digitsCore : List Char → Option (List Char)
  | [] => some []
  | '_' :: c :: rest => if c.isDigit then (digitsCore rest).map (c :: ·) else none
  | c :: rest => if c.isDigit then (digitsCore rest).map (c :: ·) else none

/-- A complete digit run (nonempty, must start with a digit). -/
def digitRun? : List Char → Option (List Char)
  | [] => none
  | c :: rest => if c.isDigit then (digitsCore rest).map (c :: ·) else none

/-- Numeric value of a list of decimal digits. -/
def digitsToNat (l : List Char) : Nat :=
  l.foldl (fun n c => 10 * n + (c.toNat - 48)) 0

/-- Python `int(s)` restricted to character lists: sign + digit run after
whitespace stripping. -/
def pyIntOfChars? (l : List Char) : Option Int :=
  match trimWs l with
  | '+' :: rest => (digitRun? rest).map (fun d => (digitsToNat d : Int))
  | '-' :: rest => (digitRun? rest).map (fun d => -(digitsToNat d : Int))
  | rest => (digitRun? rest).map (fun d => (digitsToNat d : Int))

/-- Python `int(s)` on strings (raising = `none`). -/
def pyInt? (s : String) : Option Int := pyIntOfChars? s.data

/-- A Python float value: a finite value (carried exactly as a rational),
a signed infinity, or NaN. -/
inductive PyFloat where
  | finite (q : Rat)
  | inf (pos : Bool)
  | nan
deriving DecidableEq, Repr

/-- Lower-case a character list (ASCII). -/
def lowerChars (l : List Char) : List Char := l.map Char.toLower

/-- Splits a list at the first occurrence of a character satisfying `p`:
returns (before, after-without-separator), or `none` if no such character. -/
def splitAtChar? (p : Char → Bool) : List Char → Option (List Char × List Char)
  | [] => none
  | c :: rest =>
    if p c then some ([], rest)
    else (splitAtChar? p rest).map (fun pr => (c :: pr.1, pr.2))

/-- An optionally empty digit run (used left and right of the decimal
point, where `1.` and `.5` are both legal but `.` alone is not). -/
def digitRunOrEmpty? (l : List Char) : Option (List Char) :=
  match l with
  | [] => some []
  | _ => digitRun? l

/-- Parse the signless exponent part of a float literal. -/
def pyExp? (l : List Char) : Option Int :=
  match l with
  | '+' :: rest => (digitRun? rest).map (fun d => (digitsToNat d : Int))
  | '-' :: rest => (digitRun? rest).map (fun d => -(digitsToNat d : Int))
  | rest => (digitRun? rest).map (fun d => (digitsToNat d : Int))

/-- Value of mantissa digits `ip.fp` scaled by `10^e`, built with `mkRat`
directly from an integer numerator and denominator. -/
def ratOfParts (ip fp : List Char) (e : Int) : Rat :=
  let m : Int := (digitsToNat (ip ++ fp) : Int)
  let shift : Int := e - fp.length
  if 0 ≤ shift then mkRat (m * ((10 ^ shift.toNat : Nat) : Int)) 1
  else mkRat m (10 ^ (-shift).toNat)

/-- Parse the part of a float literal after the optional sign
(finite numerals only). -/
def pyFloatMant? (l : List Char) : Option Rat := do
  let (mant, e) ←
    match splitAtChar? (fun c => c == 'e' || c == 'E') l with
    | some (m, ex) => do
      let e ← pyExp? ex
      pure (m, e)
    | none => pure (l, (0 : Int))
  let (ip, fp) ←
    match splitAtChar? (fun c => c == '.') mant with
    | some (i, f) => do
      let id ← digitRunOrEmpty? i
      let fd ← digitRunOrEmpty? f
      if id.isEmpty && fd.isEmpty then none else pure (id, fd)
    | none => do
      let id ← digitRun? mant
      pure (id, [])
  pure (ratOfParts ip fp e)

/-- Parse the part of a float literal after the optional sign, including the
special spellings. `pos` is the sign read before it. -/
def pyFloatBody? (pos : Bool) (l : List Char) : Option PyFloat :=
  let low := lowerChars l
  if low == "inf".data || low == "infinity".data then some (.inf pos)
  else if low == "nan".data then some .nan
  else (pyFloatMant? l).map (fun q => .finite (if pos then q else -q))

/-- Python `float(s)` (raising = `none`). -/
def pyFloat? (s : String) : Option PyFloat :=
  match trimWs s.data with
  | '+' :: rest => pyFloatBody? true rest
  | '-' :: rest => pyFloatBody? false rest
  | rest => pyFloatBody? true rest

/-! ## Python string literals, control stripping, substring test -/

/-- Remove the characters matched by `re.sub(r'[\x00-\x1F\x7F]', '', ...)`. -/
def stripControl (s : String) : String :=
  String.mk (s.data.filter (fun c => !(c.toNat ≤ 0x1F || c.toNat == 0x7F)))

/-- One-character escapes of Python string literals. -/
def escChar? : Char → Option Char
  | 'n' => some '\n'
  | 't' => some '\t'
  | 'r' => some '\r'
  | '\\' => some '\\'
  | '\x27' => some '\x27'
  | '"' => some '"'
  | '0' => some '\x00'
  | 'a' => some '\x07'
  | 'b' => some '\x08'
  | 'f' => some '\x0c'
  | 'v' => some '\x0b'
  | _ => none

/-- Body of a double-quoted Python string literal: everything after the
opening quote.  Succeeds only when the closing quote is the final character
(an earlier unescaped quote makes `literal_eval` fail on these inputs).
Unknown escapes keep the backslash, as Python does.  Hex/octal/unicode
escapes are not modelled. -/
def strLitCore : List Char → Option (List Char)
  | [] => none
  | '"' :: rest => if rest.isEmpty then some [] else none
  | '\\' :: c :: rest =>
    (match escChar? c with
     | some e => (strLitCore rest).map (e :: ·)
     | none => (strLitCore rest).map (fun t => '\\' :: c :: t))
  | '\\' :: [] => none
  | c :: rest => (strLitCore rest).map (c :: ·)

/-- Result of `str(literal_eval(s))` for an `s` that starts and ends with `"`; `none`
models `literal_eval` raising (in which case the source keeps `s` as is). -/
def literalEvalStr? (s : String) : Option String :=
  match s.data with
  | '"' :: rest => (strLitCore rest).map String.mk
  | _ => none

/-- Python `needle in hay` on character lists. -/
def listContainsSub (needle : List Char) : List Char → Bool
  | [] => needle.isEmpty
  | h :: t => needle.isPrefixOf (h :: t) || listContainsSub needle t

/-- The Python `in` operator on strings (substring test). -/
def strIn (needle hay : String) : Bool := listContainsSub needle.data hay.data

/-! ## Python values and comparison semantics -/

/-- A dynamically typed Python value as it occurs in `validate`'s comparison
branch: the variables `output` and `val` each hold a `str`, an `int` or a
`float` after the coercion block. -/
inductive PyVal where
  | str (s : String)
  | int (n : Int)
  | float (f : PyFloat)
deriving DecidableEq, Repr

/-- Python `==` on floats (NaN equals nothing). -/
def PyFloat.eqB : PyFloat → PyFloat → Bool
  | .finite a, .finite b => a == b
  | .inf a, .inf b => a == b
  | _, _ => false

/-- Python `<` on floats (every comparison with NaN is false). -/
def PyFloat.ltB : PyFloat → PyFloat → Bool
  | .finite a, .finite b => decide (a < b)
  | .finite _, .inf p => p
  | .inf p, .finite _ => !p
  | .inf p, .inf q => !p && q
  | _, _ => false

/-- Python `<=` on floats (every comparison with NaN is false). -/
def PyFloat.leB : PyFloat → PyFloat → Bool
  | .finite a, .finite b => decide (a ≤ b)
  | .finite _, .inf p => p
  | .inf p, .finite _ => !p
  | .inf p, .inf q => !p || q
  | _, _ => false

/-- Python `==` between the values `validate` compares.  Numbers compare
exactly across `int`/`float`; a string never equals a number. -/
def pyEqB : PyVal → PyVal → Bool
  | .str x, .str y => x == y
  | .int x, .int y => x == y
  | .int x, .float y => PyFloat.eqB (.finite (x : Rat)) y
  | .float x, .int y => PyFloat.eqB x (.finite (y : Rat))
  | .float x, .float y => PyFloat.eqB x y
  | _, _ => false

/-- Python `<`; `none` models the `TypeError` raised on an order comparison
between a string and a number (uncaught in the source). -/
def pyLtB? : PyVal → PyVal → Option Bool
  | .str x, .str y => some (compare x y == .lt)
  | .int x, .int y => some (decide (x < y))
  | .int x, .float y => some (PyFloat.ltB (.finite (x : Rat)) y)
  | .float x, .int y => some (PyFloat.ltB x (.finite (y : Rat)))
  | .float x, .float y => some (PyFloat.ltB x y)
  | _, _ => none

/-- Python `<=`; `none` models `TypeError`. -/
def pyLeB? : PyVal → PyVal → Option Bool
  | .str x, .str y => some (!(compare x y == .gt))
  | .int x, .int y => some (decide (x ≤ y))
  | .int x, .float y => some (PyFloat.leB (.finite (x : Rat)) y)
  | .float x, .int y => some (PyFloat.leB x (.finite (y : Rat)))
  | .float x, .float y => some (PyFloat.leB x y)
  | _, _ => none

/-- Python `>` (`x > y` is `y < x` for these operand types, NaN included). -/
def pyGtB? (a b : PyVal) : Option Bool := pyLtB? b a

/-- Python `>=`. -/
def pyGeB? (a b : PyVal) : Option Bool := pyLeB? b a

/-- Smallest power of ten clearing `q`'s denominator (fuel-bounded). -/
def findScale (q : Rat) : Nat → Nat → Option Nat
  | _, 0 => none
  | i, fuel + 1 =>
    if (q * (10 : Rat) ^ i).den == 1 then some i else findScale q (i + 1) fuel

/-- A decimal rendering of a float, modelling Python `str()` on floats for
the finite decimal values produced by `pyFloat?`. -/
def pyFloatRepr : PyFloat → String
  | .inf p => if p then "inf" else "-inf"
  | .nan => "nan"
  | .finite q =>
    match findScale q 0 64 with
    | some 0 => toString q.num ++ ".0"
    | some k =>
      let n := (q * (10 : Rat) ^ k).num
      let sign := if n < 0 then "-" else ""
      let digits := toString n.natAbs
      let digits :=
        if digits.length ≤ k then
          String.mk (List.replicate (k + 1 - digits.length) '0') ++ digits
        else digits
      sign ++ digits.dropRight k ++ "." ++ digits.takeRight k
    | none => toString q.num ++ "/" ++ toString q.den

/-- Python `str()` on the values handled here. -/
def PyVal.toPyString : PyVal → String
  | .str s => s
  | .int n => toString n
  | .float f => pyFloatRepr f

/-! ## The coercion block and `validate` -/

/-- The test `operatorVal.startswith('"') and operatorVal.endswith('"')`:
with a one-character pattern this is exactly a test on the first and the
last character of the string. -/
def quotedOperand (s : String) : Bool :=
  (match s.data.head? with | some '"' => true | _ => false) &&
  (match s.data.getLast? with | some '"' => true | _ => false)

/-- The operand/output coercion block of `ValidationCommand.validate`
(lines 98–120 of `DataFields.py`), with its exact `try`/`except` flow.
Returns `(output, val)` as the dynamically typed values compared afterwards.
Note that when `int(val)` succeeds the name `val` is already rebound before
`int(output)` is attempted, so a later `except` leaves `val` numeric. -/
def coerce (operatorVal output : String) : PyVal × PyVal :=
  if quotedOperand operatorVal then
    match literalEvalStr? operatorVal with
    | some s => (.str output, .str s)
    | none => (.str output, .str operatorVal)
  else
    match pyInt? operatorVal with
    | some vi =>
      match pyInt? output with
      | some oi => (.int oi, .int vi)
      | none =>
        -- `val = float(val)` where `val` is the int `vi`: always succeeds.
        match pyFloat? output with
        | some og => (.float og, .float (.finite (vi : Rat)))
        | none => (.str (stripControl output), .float (.finite (vi : Rat)))
    | none =>
      match pyFloat? operatorVal with
      | some vf =>
        match pyFloat? output with
        | some og => (.float og, .float vf)
        | none => (.str (stripControl output), .float vf)
      | none => (.str (stripControl output), .str operatorVal)

/-- The aggregation tail of `validate` (lines 152–156): the previous
aggregate is kept when it is `NOTRUN` or agrees with the current pair
verdict, otherwise the aggregate becomes `NOT_ALL_OK`. -/
def reduceStep (prev cur : TestResult) : TestResult :=
  if prev == .NOTRUN || cur == prev then cur else .NOT_ALL_OK

/-- The `reduce` pass over a sequence of per-iteration verdicts, as performed by
`Item.test`'s loop: the aggregate starts at `NOTRUN` and each iteration
passes the previous aggregate back into `validate`'s tail. -/
def reduceVerdicts (l : List TestResult) : TestResult :=
  l.foldl reduceStep .NOTRUN

/-- The method `ValidationCommand.validate`.  Returns
`some (pair verdict stored into testResult.result, aggregate returned)`;
`none` models the uncaught `TypeError` of an order comparison between a
string and a number.  In the unknown-operator branch the source assigns the
integer `TestResult.ERROR` to `currentTestResult` and rebinds the local
`prevTestResult` to `TestResult.UNDEFINED`. -/
def ValidationCommand.validate (vc : ValidationCommand)
    (originalResult testResult : ResultCommand) (prevTestResult : TestResult) :
    Option (TestResult × TestResult) :=
  let step : Option (PyBoolish × TestResult) :=
    if vc.operation == Operation.SAME then
      some (.ofBool (rcEq originalResult testResult), prevTestResult)
    else if vc.operation == Operation.COMPARISON then
      let pair := coerce vc.operatorVal testResult.output
      let output := pair.1
      let val := pair.2
      if vc.operator == "==" then some (.ofBool (pyEqB output val), prevTestResult)
      else if vc.operator == "<>" then some (.ofBool (!pyEqB output val), prevTestResult)
      else if vc.operator == ">" then (pyGtB? output val).map (fun b => (.ofBool b, prevTestResult))
      else if vc.operator == "<" then (pyLtB? output val).map (fun b => (.ofBool b, prevTestResult))
      else if vc.operator == ">=" then (pyGeB? output val).map (fun b => (.ofBool b, prevTestResult))
      else if vc.operator == "<=" then (pyLeB? output val).map (fun b => (.ofBool b, prevTestResult))
      else if vc.operator == "contain" then
        some (.ofBool (strIn val.toPyString output.toPyString), prevTestResult)
      else if vc.operator == "not contain" then
        some (.ofBool (!strIn val.toPyString output.toPyString), prevTestResult)
      else
        some (.ofResult TestResult.ERROR, TestResult.UNDEFINED)
    else
      some (.ofBool false, prevTestResult)
  step.map (fun cp =>
    let pairVerdict := if cp.1.truthy then TestResult.OK else TestResult.ERROR
    (pairVerdict, reduceStep cp.2 pairVerdict))

/-! ## `shlex.split` (POSIX mode) -/

/-- Lexer state for `shlexSplit`: outside quotes, inside single quotes,
inside double quotes, or just after a backslash (outside / inside double
quotes). -/
inductive LexMode where
  | normal
  | inSingle
  | inDouble
  | escNormal
  | escDouble
deriving DecidableEq, Repr

/-- Core loop of `shlex.split` in POSIX mode: whitespace separates words,
quotes group, backslash escapes (inside double quotes only before `"` or
`\`).  `inWord` tracks whether a (possibly empty) token is open; `cur` is
the current token reversed, `acc` the finished tokens reversed.  An
unterminated quote (which makes `shlex` raise) emits the pending token. -/
def shlexCore : List Char → LexMode → Bool → List Char → List String → List String
  | [], _, inWord, cur, acc =>
    (if inWord then String.mk cur.reverse :: acc else acc).reverse
  | c :: rest, .normal, inWord, cur, acc =>
    if isPyWs c then
      if inWord then shlexCore rest .normal false [] (String.mk cur.reverse :: acc)
      else shlexCore rest .normal false [] acc
    else if c == '\x27' then shlexCore rest .inSingle true cur acc
    else if c == '"' then shlexCore rest .inDouble true cur acc
    else if c == '\\' then shlexCore rest .escNormal true cur acc
    else shlexCore rest .normal true (c :: cur) acc
  | c :: rest, .escNormal, _, cur, acc => shlexCore rest .normal true (c :: cur) acc
  | c :: rest, .inSingle, _, cur, acc =>
    if c == '\x27' then shlexCore rest .normal true cur acc
    else shlexCore rest .inSingle true (c :: cur) acc
  | c :: rest, .inDouble, _, cur, acc =>
    if c == '"' then shlexCore rest .normal true cur acc
    else if c == '\\' then shlexCore rest .escDouble true cur acc
    else shlexCore rest .inDouble true (c :: cur) acc
  | c :: rest, .escDouble, _, cur, acc =>
    if c == '"' || c == '\\' then shlexCore rest .inDouble true (c :: cur) acc
    else shlexCore rest .inDouble true (c :: '\\' :: cur) acc

/-- Model of `shlex.split(s)` (POSIX mode, no comments). -/
def shlexSplit (s : String) : List String := shlexCore s.data .normal false [] []

/-! ## The work item and the command runner -/

/-- What one spawned process produced: captured stdout, captured stderr and
the exit code.  Processes are external, so they enter the model as data. -/
structure ProcOutput where
  stdout : String
  stderr : String
  returncode : Int
deriving DecidableEq, Repr, Inhabited

/-- The `subprocess.CalledProcessError` raised by `Item._execute`
(the spec's RunFailure): exit code, argv, captured error text. -/
structure RunFailure where
  returncode : Int
  cmd : List String
  stderr : String
deriving DecidableEq, Repr

/-- The `Item` dataclass with its source defaults. -/
structure Item where
  id : Int := -1
  name : String := "Undeclared"
  category : String := "Undetermined"
  repetitions : Int := 1
  enabled : Bool := true
  runcode : String := ""
  result : List ResultCommand := []
  validationCmd : ValidationCommand := {}
  testResult : TestResult := .NOTRUN
  testOutput : List ResultCommand := []
  wasTestRepeated : Int := 0
deriving DecidableEq, Repr, Inhabited

/-- The test `Item.hasBeenRun`: the baseline list has exactly `repetitions` entries. -/
def Item.hasBeenRun (it : Item) : Bool := (it.result.length : Int) == it.repetitions

/-- The test `Item.hasBeenTested`. -/
def Item.hasBeenTested (it : Item) : Bool := (it.testOutput.length : Int) == it.repetitions

/-- The test `Item.isEnabled`. -/
def Item.isEnabled (it : Item) : Bool := it.enabled && decide (0 < it.repetitions)

/-- The `for _ in range(self.repetitions)` loop of `Item._execute`, started
at spawn index `i` with `n` iterations left.  `procs i` is the outcome of
the `i`-th spawn of this call, `times i` its `(executionTime,
timeOfExecution)` observation.  Returns the records appended so far (the
source appends to `resultOutputSave` in place, so records of iterations
before a failure stay appended) together with the exception, if any:
a repetition whose process wrote a non-empty error stream raises
`CalledProcessError` and ends the loop, executing no later repetition. -/
def execFrom (cmd : List String) (procs : Nat → ProcOutput) (times : Nat → Rat × String) :
    Nat → Nat → List ResultCommand × Option RunFailure
  | _, 0 => ([], none)
  | i, n + 1 =>
    let p := procs i
    if p.stderr != "" then ([], some ⟨p.returncode, cmd, p.stderr⟩)
    else
      let pr := execFrom cmd procs times (i + 1) n
      (⟨p.stdout, some p.returncode, (times i).1, (times i).2, .NOTRUN⟩ :: pr.1, pr.2)

/-- The method `Item._execute`: split the command with `shlex`, run it `repetitions`
times (`range` of a negative count is empty, hence `toNat`). -/
def Item.executeNew (it : Item) (procs : Nat → ProcOutput) (times : Nat → Rat × String) :
    List ResultCommand × Option RunFailure :=
  execFrom (shlexSplit it.runcode) procs times 0 it.repetitions.toNat

/-- The method `Item.run`: execute into `result` unless `hasBeenRun` already holds.
Returns the item after the call and the exception that escaped, if any. -/
def Item.run (it : Item) (procs : Nat → ProcOutput) (times : Nat → Rat × String) :
    Item × Option RunFailure :=
  if it.hasBeenRun then (it, none)
  else
    let pr := it.executeNew procs times
    ({ it with result := it.result ++ pr.1 }, pr.2)

/-! ## The background task sequencer (`ParallelLoopExecution`)

The sequencer's observable behaviour is modelled as the trace of callback
events the main (interactive) thread performs.  `jobs a` is the outcome of
running `runFunction a` on the background worker (`none` = returned,
`some e` = raised `e`).  The correspondence with the source:

* `run` pops the queue head (`_getNextItem`); a `None` head calls
  `onLoopFinished` (event `queueDone`).
* `_runItem` starts one worker for the item (event `jobStart`), the only
  worker alive until its `finishedSignal`/`exceptionSignal` stops the thread.
* a worker that returns leads to `thread.finished`, whose slot
  `finishedFunction` sees `exceptionOccurred == False`, calls
  `onFinishFunction(item)` (event `itemDone`) and only then calls `run`
  again for the next item.
* a worker that raises fires `exceptionSignal`: `exceptionFunction` sets
  `exceptionOccurred` and calls `onException` (event `errorCb`); the
  subsequent `finishedFunction` is guarded by the flag and does nothing, so
  no later item ever starts and `onLoopFinished` is never called. -/

/-- A callback event observed on the interactive thread. -/
inductive QueueEvent (α : Type u) (ε : Type v) where
  | jobStart (a : α)
  | itemDone (a : α)
  | errorCb (e : ε)
  | queueDone
deriving DecidableEq, Repr

/-- The event trace of `ParallelLoopExecution` started on `loopItems`. -/
def runLoop {α : Type u} {ε : Type v} (jobs : α → Option ε) :
    List α → List (QueueEvent α ε)
  | [] => [.queueDone]
  | a :: rest =>
    .jobStart a ::
      (match jobs a with
       | none => .itemDone a :: runLoop jobs rest
       | some e => [.errorCb e])

/-- One-at-a-time discipline of a trace: after each `jobStart` the very next
event is that item's `itemDone` (before any further `jobStart`), or a
terminal `errorCb`; `queueDone` is terminal. -/
def seqOK {α : Type u} {ε : Type v} [DecidableEq α] : List (QueueEvent α ε) → Bool
  | [] => true
  | [.queueDone] => true
  | .jobStart a :: .itemDone b :: rest => decide (a = b) && seqOK rest
  | [.jobStart _, .errorCb _] => true
  | _ => false

/-! ## Persistence -/

/-- The `TestDataFields` dataclass; `date` and `testCount` carry
`compare=False`. -/
structure TestDataFields where
  name : String := ""
  project : String := ""
  date : String := ""
  testCount : String := ""
  author : String := ""
  conductor : String := ""
deriving DecidableEq, Repr, Inhabited

/-- Dataclass equality of `TestDataFields` (ignores `date`, `testCount`). -/
def tdfEq (a b : TestDataFields) : Bool :=
  a.name == b.name && a.project == b.project && a.author == b.author &&
    a.conductor == b.conductor

/-- Dataclass equality of `ValidationCommand` (all three fields). -/
def vcEq (a b : ValidationCommand) : Bool :=
  a.operation == b.operation && a.operator == b.operator &&
    a.operatorVal == b.operatorVal

/-- Python list equality over `ResultCommand` entries (element-wise
dataclass equality). -/
def rcListEq : List ResultCommand → List ResultCommand → Bool
  | [], [] => true
  | a :: ta, b :: tb => rcEq a b && rcListEq ta tb
  | _, _ => false

/-- Dataclass equality of `Item`: every field takes part (none is marked
`compare=False`), nested lists via `ResultCommand` equality. -/
def itemEq (a b : Item) : Bool :=
  a.id == b.id && a.name == b.name && a.category == b.category &&
  a.repetitions == b.repetitions && a.enabled == b.enabled &&
  a.runcode == b.runcode && rcListEq a.result b.result &&
  vcEq a.validationCmd b.validationCmd && a.testResult == b.testResult &&
  rcListEq a.testOutput b.testOutput && a.wasTestRepeated == b.wasTestRepeated

/-- One item record as written by `saveItemsToFile`: `asdict(item)` with the
keys `testResult` and `testOutput` deleted.  The file is modelled at the
structural level of the JSON envelope (string/number encoding details are
outside the scope of the embedding). -/
structure SavedItem where
  id : Int
  name : String
  category : String
  repetitions : Int
  enabled : Bool
  runcode : String
  result : List ResultCommand
  validationCmd : ValidationCommand
  wasTestRepeated : Int
deriving DecidableEq, Repr

/-- The record `saveItemsToFile` writes for one item. -/
def Item.toSaved (it : Item) : SavedItem :=
  ⟨it.id, it.name, it.category, it.repetitions, it.enabled, it.runcode,
    it.result, it.validationCmd, it.wasTestRepeated⟩

/-- The `Item(**filteredDict)` reconstruction `areItemsSaved` performs on
such a record: present keys are taken over, the deleted test keys fall back
to the dataclass defaults. -/
def SavedItem.toItem (s : SavedItem) : Item :=
  { id := s.id, name := s.name, category := s.category,
    repetitions := s.repetitions, enabled := s.enabled, runcode := s.runcode,
    result := s.result, validationCmd := s.validationCmd,
    testResult := .NOTRUN, testOutput := [],
    wasTestRepeated := s.wasTestRepeated }

/-- The two-element envelope written by the non-export save variant. -/
structure SavedFile where
  meta : TestDataFields
  items : List SavedItem
deriving DecidableEq, Repr

/-- The writer `saveItemsToFile`: metadata first, then the item records with the test
fields removed. -/
def saveItemsToFileModel (md : TestDataFields) (items : List Item) : SavedFile :=
  ⟨md, items.map Item.toSaved⟩

/-- The exceptions that can escape `areItemsSaved`: `open` raising on an
unreadable file, and `items[index]` raising when the in-memory list is
shorter than the file's item array. -/
inductive LoadError where
  | ioError
  | indexError
deriving DecidableEq, Repr

/-- The `for index, itemDict in enumerate(jsonList[1])` loop of
`areItemsSaved`: each file record is reconstructed and compared against the
in-memory item at the same index; the loop returns `False` on the first
mismatch and `True` when the *file's* records are exhausted. -/
def checkItems (items : List Item) (saved : List SavedItem) (idx : Nat) :
    Except LoadError Bool :=
  match saved with
  | [] => .ok true
  | s :: rest =>
    match items[idx]? with
    | none => .error .indexError
    | some it => if itemEq s.toItem it then checkItems items rest (idx + 1) else .ok false

/-- Body of `areItemsSaved` once the file is open: metadata compared first
(dataclass equality, so `date`/`testCount` are ignored), then the item loop. -/
def areItemsSavedCore (md : TestDataFields) (items : List Item) (f : SavedFile) :
    Except LoadError Bool :=
  if tdfEq md f.meta then checkItems items f.items 0 else .ok false

/-- The checker `areItemsSaved(testDataFields, items, filename)`.  The file system enters
as `file : Option SavedFile`; `none` is an unreadable file, on which the
source's `open` raises an `OSError` that nothing in the function catches. -/
def areItemsSavedE (file : Option SavedFile) (md : TestDataFields)
    (items : List Item) : Except LoadError Bool :=
  match file with
  | none => .error .ioError
  | some f => areItemsSavedCore md items f


/-! ## The spec's reading of the coercion order (claim C3)

For the refinement claim C3 a second definition follows the spec's words, to
be compared with `coerce`, which is translated from the source. -/

/-- The coercion order exactly as the spec states it: (a) quoted operand →
both sides literal strings; (b) else both parse as integers → integers;
(c) else both parse as floats → floats; (d) else control characters are
stripped from the candidate output and the comparison is raw-string. -/
def specCoerce (operatorVal output : String) : PyVal × PyVal :=
  if quotedOperand operatorVal then
    (.str output, .str ((literalEvalStr? operatorVal).getD operatorVal))
  else if (pyInt? operatorVal).isSome && (pyInt? output).isSome then
    (.int ((pyInt? output).getD 0), .int ((pyInt? operatorVal).getD 0))
  else if (pyFloat? operatorVal).isSome && (pyFloat? output).isSome then
    (.float ((pyFloat? output).getD .nan), .float ((pyFloat? operatorVal).getD .nan))
  else
    (.str (stripControl output), .str operatorVal)

/-- The pair verdict of a Comparison-mode evaluation under the spec's
coercion order, with the operators' native semantics on the coerced types. -/
def specComparisonVerdict (op operatorVal output : String) : Option TestResult :=
  let pair := specCoerce operatorVal output
  let ov := pair.1
  let vv := pair.2
  let b? : Option Bool :=
    if op == "==" then some (pyEqB ov vv)
    else if op == "<>" then some (!pyEqB ov vv)
    else if op == ">" then pyGtB? ov vv
    else if op == "<" then pyLtB? ov vv
    else if op == ">=" then pyGeB? ov vv
    else if op == "<=" then pyLeB? ov vv
    else if op == "contain" then some (strIn vv.toPyString ov.toPyString)
    else if op == "not contain" then some (!strIn vv.toPyString ov.toPyString)
    else none
  b?.map (fun b => if b then TestResult.OK else TestResult.ERROR)

/-- The corrected description of the source's coercion order (amended claim
C3): in case (c) the operand's value may come from its integer parse, and in
case (d) the operand keeps its numeric coercion when it has one — only an
operand that parses as neither int nor float is compared as its raw text. -/
def amendedCoerce (operatorVal output : String) : PyVal × PyVal :=
  if quotedOperand operatorVal then
    (.str output, .str ((literalEvalStr? operatorVal).getD operatorVal))
  else
    match pyInt? operatorVal, pyInt? output with
    | some vn, some om => (.int om, .int vn)
    | vi, _ =>
      let vf : Option PyFloat :=
        match vi with
        | some n => some (.finite (n : Rat))
        | none => pyFloat? operatorVal
      match vf, pyFloat? output with
      | some v, some o => (.float o, .float v)
      | some v, none => (.str (stripControl output), .float v)
      | none, _ => (.str (stripControl output), .str operatorVal)

/-! # Theorems -/

/-! ## Aggregation (claims C1, C2) -/

lemma reduceStep_notrun (v : TestResult) : reduceStep .NOTRUN v = v := by
  simp [reduceStep]

lemma reduceStep_self (v : TestResult) : reduceStep v v = v := by
  simp [reduceStep]

lemma foldl_reduceStep_stuck (l : List TestResult)
    (hl : ∀ x ∈ l, x = .OK ∨ x = .ERROR) :
    l.foldl reduceStep .NOT_ALL_OK = .NOT_ALL_OK := by
  induction l with
  | nil => rfl
  | cons a t ih =>
    have ha := hl a (List.mem_cons_self a t)
    have hstep : reduceStep .NOT_ALL_OK a = .NOT_ALL_OK := by
      rcases ha with h | h <;> subst h <;> rfl
    rw [List.foldl_cons, hstep]
    exact ih (fun x hx => hl x (List.mem_cons_of_mem a hx))

lemma foldl_reduceStep_run (v : TestResult) (l : List TestResult) :
    (v = .OK ∨ v = .ERROR) → (∀ x ∈ l, x = .OK ∨ x = .ERROR) →
    l.foldl reduceStep v = if l.all (· == v) then v else .NOT_ALL_OK := by
  induction l with
  | nil => intro hv hl; simp
  | cons a t ih =>
    intro hv hl
    have ht : ∀ x ∈ t, x = .OK ∨ x = .ERROR :=
      fun x hx => hl x (List.mem_cons_of_mem a hx)
    by_cases hav : a = v
    · subst hav
      rw [List.foldl_cons, reduceStep_self, ih hv ht]
      simp
    · have hstep : reduceStep v a = .NOT_ALL_OK := by
        rcases hv with h | h <;> subst h <;> simp [reduceStep, hav]
      rw [List.foldl_cons, hstep, foldl_reduceStep_stuck t ht]
      simp [hav]

/-- Claim C2: the aggregate over a non-empty sequence of per-iteration
verdicts (each `OK` or `ERROR`, as `validate` produces them) is the first
verdict when every verdict agrees with it and `NOT_ALL_OK` (MixedResult) as
soon as one differs; in particular the four listed evaluations. -/
theorem reduce_seeded_aggregate :
    (∀ (v : TestResult) (l : List TestResult), (v = .OK ∨ v = .ERROR) →
      (∀ x ∈ l, x = .OK ∨ x = .ERROR) →
      reduceVerdicts (v :: l) = if l.all (· == v) then v else .NOT_ALL_OK) ∧
    reduceVerdicts [.OK, .OK, .OK] = .OK ∧
    reduceVerdicts [.ERROR, .ERROR] = .ERROR ∧
    reduceVerdicts [.OK, .ERROR] = .NOT_ALL_OK ∧
    reduceVerdicts [.OK, .ERROR, .OK] = .NOT_ALL_OK := by
  refine ⟨?_, by decide, by decide, by decide, by decide⟩
  intro v l hv hl
  unfold reduceVerdicts
  rw [List.foldl_cons, reduceStep_notrun]
  exact foldl_reduceStep_run v l hv hl

/-- Witness for `reduce_seeded_aggregate` at `[OK, ERROR, OK]`. -/
theorem reduce_seeded_aggregate_witness :
    reduceVerdicts [.OK, .ERROR, .OK] = .NOT_ALL_OK := by
  have h := reduce_seeded_aggregate.1 .OK [.ERROR, .OK] (Or.inl rfl) (by decide)
  exact h.trans (by decide)

/-- Claim C1 (evaluation of the code at the claim's situation): in
Comparison mode with an operator outside the supported list the pair
verdict stored for the iteration is `OK` — the branch assigns the integer
`TestResult.ERROR`, which is truthy, so the subsequent bool-to-verdict
conversion maps it to `OK` — and the aggregate returned for the case is
`NOT_ALL_OK` (MixedResult), not `UNDEFINED`, whatever the previous
aggregate was. -/
theorem unsupported_operator_ok_mixed (vc : ValidationCommand)
    (orig test : ResultCommand) (prev : TestResult)
    (hop : vc.operation = Operation.COMPARISON)
    (hunk : vc.operator ∉ ValidationCommand.operators) :
    vc.validate orig test prev = some (.OK, .NOT_ALL_OK) := by
  simp only [ValidationCommand.operators, List.mem_cons, List.not_mem_nil, or_false,
    not_or] at hunk
  obtain ⟨h1, h2, h3, h4, h5, h6, h7, h8⟩ := hunk
  unfold ValidationCommand.validate
  rw [hop]
  simp [Operation.SAME, Operation.COMPARISON, h1, h2, h3, h4, h5, h6, h7, h8,
    PyBoolish.truthy, TestResult.toInt, reduceStep]

/-- Witness for `unsupported_operator_ok_mixed`: the operator `!=` (Python
spelling, not in the source's list) on operand and output `1`. -/
theorem unsupported_operator_ok_mixed_witness :
    ValidationCommand.validate ⟨Operation.COMPARISON, "!=", "1"⟩ {} { output := "1" } .NOTRUN
      = some (.OK, .NOT_ALL_OK) :=
  unsupported_operator_ok_mixed _ _ _ _ rfl (by decide)

/-! ## Comparison-mode coercion (claim C3) and SameOutput mode (claim C7) -/

/-- Counterexample to claim C3 as stated: with unquoted operand `5`, output
`"5\x01"` and operator `==`, the spec's coercion order reaches case (d) and
compares raw strings (`"5" == "5"` after control stripping), verdict `OK`;
the source, whose `val` was already rebound to a number when the output
failed to parse, compares a string against a float and yields `ERROR`. -/
theorem coercion_spec_counterexample :
    specComparisonVerdict "==" "5" "5\x01" = some .OK ∧
    ValidationCommand.validate ⟨Operation.COMPARISON, "==", "5"⟩ {} { output := "5\x01" } .NOTRUN
      = some (.ERROR, .ERROR) := by
  constructor <;> decide

/-- Claim C3 amended: the source's coercion follows the spec's order except
that in case (d) the operand keeps the numeric coercion it obtained (its
integer parse promoted to float when the output failed to parse); only an
operand that parses as neither int nor float is compared as raw text.  The
two quoted/float examples of the claim hold as stated. -/
theorem coerce_order_amended :
    (∀ operatorVal output, coerce operatorVal output = amendedCoerce operatorVal output) ∧
    coerce "\"5\"" "5" = (.str "5", .str "5") ∧
    ValidationCommand.validate ⟨Operation.COMPARISON, "==", "\"5\""⟩ {} { output := "5" } .NOTRUN
      = some (.OK, .OK) ∧
    coerce "5" "5.0" = (.float (.finite 5), .float (.finite 5)) ∧
    ValidationCommand.validate ⟨Operation.COMPARISON, "==", "5"⟩ {} { output := "5.0" } .NOTRUN
      = some (.OK, .OK) := by
  refine ⟨?_, by decide, by decide, by decide, by decide⟩
  intro ov out
  unfold coerce amendedCoerce
  by_cases hq : quotedOperand ov = true
  · rcases h : literalEvalStr? ov with _ | s <;> simp [hq, h]
  · simp only [hq, if_false]
    rcases h1 : pyInt? ov with _ | vi
    · rcases h3 : pyFloat? ov with _ | vf
      · simp [h1, h3]
      · rcases h4 : pyFloat? out with _ | og <;> simp [h1, h3, h4]
    · rcases h2 : pyInt? out with _ | oi
      · rcases h4 : pyFloat? out with _ | og <;> simp [h1, h2, h4]
      · simp [h1, h2]

/-- Claim C7: in SameOutput mode the pair verdict is `OK` exactly when the
candidate's `(output, returnCode)` equals the baseline's and `ERROR`
otherwise, independent of `executionTime`, `timeOfExecution` and the stored
`result`; and dataclass equality of `ResultCommand` holds whenever
`(output, returnCode)` agree, whatever the excluded fields are. -/
theorem sameOutput_pair_verdict :
    (∀ (op opv o o2 : String) (rc rc2 : Option Int) (d d2 : Rat) (t t2 : String)
       (r r2 prev : TestResult),
      ValidationCommand.validate ⟨Operation.SAME, op, opv⟩ ⟨o, rc, d, t, r⟩
          ⟨o2, rc2, d2, t2, r2⟩ prev
        = some ((if o = o2 ∧ rc = rc2 then TestResult.OK else TestResult.ERROR),
            reduceStep prev (if o = o2 ∧ rc = rc2 then TestResult.OK else TestResult.ERROR))) ∧
    (∀ (o : String) (rc : Option Int) (d d2 : Rat) (t t2 : String) (r r2 : TestResult),
      rcEq ⟨o, rc, d, t, r⟩ ⟨o, rc, d2, t2, r2⟩ = true) := by
  constructor
  · intro op opv o o2 rc rc2 d d2 t t2 r r2 prev
    unfold ValidationCommand.validate
    simp only [beq_self_eq_true, if_true, Option.map_some]
    by_cases h1 : o = o2 <;> by_cases h2 : rc = rc2 <;>
      simp [rcEq, PyBoolish.truthy, h1, h2]
  · intro o rc d d2 t t2 r r2
    simp [rcEq]

/-! ## Command runner (claims C4, C6) -/

lemma execFrom_succ (cmd : List String) (procs : Nat → ProcOutput)
    (times : Nat → Rat × String) (i n : Nat) :
    execFrom cmd procs times i (n + 1) =
      if (procs i).stderr != "" then
        ([], some ⟨(procs i).returncode, cmd, (procs i).stderr⟩)
      else
        ((⟨(procs i).stdout, some (procs i).returncode, (times i).1, (times i).2,
            .NOTRUN⟩ : ResultCommand) :: (execFrom cmd procs times (i + 1) n).1,
          (execFrom cmd procs times (i + 1) n).2) := rfl

lemma execFrom_err_iff (cmd : List String) (procs : Nat → ProcOutput)
    (times : Nat → Rat × String) :
    ∀ (n i : Nat), (execFrom cmd procs times i n).2.isSome ↔
      ∃ j < n, (procs (i + j)).stderr ≠ "" := by
  intro n
  induction n with
  | zero => intro i; simp [execFrom]
  | succ n ih =>
    intro i
    by_cases h : (procs i).stderr = ""
    · rw [execFrom_succ, if_neg (by simp [h])]
      change (execFrom cmd procs times (i + 1) n).2.isSome = true ↔ _
      rw [ih (i + 1)]
      constructor
      · rintro ⟨j, hj, hne⟩
        refine ⟨j + 1, by omega, ?_⟩
        rwa [show i + (j + 1) = i + 1 + j by omega]
      · rintro ⟨j, hj, hne⟩
        match j with
        | 0 => exact absurd (by simpa using h) (by simpa using hne)
        | j + 1 =>
          refine ⟨j, by omega, ?_⟩
          rwa [show i + 1 + j = i + (j + 1) by omega]
    · rw [execFrom_succ, if_pos (by simpa using h)]
      simp only [Option.isSome_some, true_iff]
      exact ⟨0, by omega, by simpa using h⟩

lemma execFrom_quiet (cmd : List String) (procs : Nat → ProcOutput)
    (times : Nat → Rat × String) :
    ∀ (n i : Nat), (∀ j < n, (procs (i + j)).stderr = "") →
      (execFrom cmd procs times i n).1.length = n ∧
      (execFrom cmd procs times i n).2 = none := by
  intro n
  induction n with
  | zero => intro i _; simp [execFrom]
  | succ n ih =>
    intro i h
    have h0 : (procs i).stderr = "" := by simpa using h 0 (by omega)
    have ht : ∀ j < n, (procs (i + 1 + j)).stderr = "" := by
      intro j hj
      have := h (j + 1) (by omega)
      rwa [show i + (j + 1) = i + 1 + j by omega] at this
    have hrec := ih (i + 1) ht
    rw [execFrom_succ]
    simp [h0, hrec.1, hrec.2]

lemma execFrom_first_fail (cmd : List String) (procs : Nat → ProcOutput)
    (times : Nat → Rat × String) :
    ∀ (n i k : Nat), k < n → (∀ j < k, (procs (i + j)).stderr = "") →
      (procs (i + k)).stderr ≠ "" →
      (execFrom cmd procs times i n).2 =
        some ⟨(procs (i + k)).returncode, cmd, (procs (i + k)).stderr⟩ := by
  intro n
  induction n with
  | zero => intro i k hk; omega
  | succ n ih =>
    intro i k hk hquiet hfail
    match k with
    | 0 =>
      have hb : ((procs i).stderr != "") = true := by simpa using hfail
      rw [execFrom_succ]
      simp [hb]
    | k + 1 =>
      have h0 : (procs i).stderr = "" := by simpa using hquiet 0 (by omega)
      have hquiet2 : ∀ j < k, (procs (i + 1 + j)).stderr = "" := by
        intro j hj
        have := hquiet (j + 1) (by omega)
        rwa [show i + (j + 1) = i + 1 + j by omega] at this
      have hfail2 : (procs (i + 1 + k)).stderr ≠ "" := by
        rwa [show i + 1 + k = i + (k + 1) by omega]
      have hrec := ih (i + 1) k (by omega) hquiet2 hfail2
      rw [execFrom_succ, if_neg (by simp [h0])]
      change (execFrom cmd procs times (i + 1) n).2 = _
      rw [hrec, show i + 1 + k = i + (k + 1) by omega]

lemma execFrom_agree (cmd : List String) (procs : Nat → ProcOutput)
    (times : Nat → Rat × String) :
    ∀ (n i k : Nat) (procs2 : Nat → ProcOutput) (times2 : Nat → Rat × String),
      (∀ j ≤ k, procs2 (i + j) = procs (i + j) ∧ times2 (i + j) = times (i + j)) →
      (∀ j < k, (procs (i + j)).stderr = "") → (procs (i + k)).stderr ≠ "" →
      execFrom cmd procs2 times2 i n = execFrom cmd procs times i n := by
  intro n
  induction n with
  | zero => intro i k _ _ _ _ _; rfl
  | succ n ih =>
    intro i k procs2 times2 hagree hquiet hfail
    have hp0 : procs2 i = procs i := by simpa using (hagree 0 (by omega)).1
    have ht0 : times2 i = times i := by simpa using (hagree 0 (by omega)).2
    rw [execFrom_succ, execFrom_succ, hp0, ht0]
    match k with
    | 0 =>
      have hb : ((procs i).stderr != "") = true := by simpa using hfail
      simp [hb]
    | k + 1 =>
      have h0 : (procs i).stderr = "" := by simpa using hquiet 0 (by omega)
      have hagree2 : ∀ j ≤ k, procs2 (i + 1 + j) = procs (i + 1 + j) ∧
          times2 (i + 1 + j) = times (i + 1 + j) := by
        intro j hj
        have := hagree (j + 1) (by omega)
        rwa [show i + (j + 1) = i + 1 + j by omega] at this
      have hquiet2 : ∀ j < k, (procs (i + 1 + j)).stderr = "" := by
        intro j hj
        have := hquiet (j + 1) (by omega)
        rwa [show i + (j + 1) = i + 1 + j by omega] at this
      have hfail2 : (procs (i + 1 + k)).stderr ≠ "" := by
        rwa [show i + 1 + k = i + (k + 1) by omega]
      rw [ih (i + 1) k procs2 times2 hagree2 hquiet2 hfail2]

/-- Claim C4: `_execute` raises a `CalledProcessError` carrying argv, exit
code and error text exactly when some repetition's process writes a
non-empty error stream; when every repetition is quiet it returns
`repetitions` records and no failure; and the failure comes from the first
failing repetition, with the outcome independent of every process after it
(later repetitions are never executed). -/
theorem execute_stderr_contract (it : Item) (procs : Nat → ProcOutput)
    (times : Nat → Rat × String) :
    ((it.executeNew procs times).2.isSome ↔
      ∃ j < it.repetitions.toNat, (procs j).stderr ≠ "") ∧
    ((∀ j < it.repetitions.toNat, (procs j).stderr = "") →
      (it.executeNew procs times).1.length = it.repetitions.toNat ∧
      (it.executeNew procs times).2 = none) ∧
    (∀ k < it.repetitions.toNat,
      (∀ j < k, (procs j).stderr = "") → (procs k).stderr ≠ "" →
      (it.executeNew procs times).2 =
        some ⟨(procs k).returncode, shlexSplit it.runcode, (procs k).stderr⟩ ∧
      ∀ (procs2 : Nat → ProcOutput) (times2 : Nat → Rat × String),
        (∀ j ≤ k, procs2 j = procs j ∧ times2 j = times j) →
        it.executeNew procs2 times2 = it.executeNew procs times) := by
  refine ⟨?_, ?_, ?_⟩
  · simpa using execFrom_err_iff (shlexSplit it.runcode) procs times it.repetitions.toNat 0
  · intro h
    exact execFrom_quiet (shlexSplit it.runcode) procs times it.repetitions.toNat 0
      (by simpa using h)
  · intro k hk hquiet hfail
    constructor
    · simpa using execFrom_first_fail (shlexSplit it.runcode) procs times
        it.repetitions.toNat 0 k hk (by simpa using hquiet) (by simpa using hfail)
    · intro procs2 times2 hagree
      exact execFrom_agree (shlexSplit it.runcode) procs times it.repetitions.toNat 0 k
        procs2 times2 (by simpa using hagree) (by simpa using hquiet) (by simpa using hfail)

/-- Witness for `execute_stderr_contract`: two repetitions, the second
writes `boom` to stderr with exit code 3. -/
theorem execute_stderr_contract_witness :
    (({ repetitions := 2, runcode := "x" } : Item).executeNew
        (fun j => if j == 1 then ⟨"", "boom", 3⟩ else ⟨"ok", "", 0⟩)
        (fun _ => (1, "t"))).2
      = some ⟨3, ["x"], "boom"⟩ := by
  have h := (execute_stderr_contract { repetitions := 2, runcode := "x" }
      (fun j => if j == 1 then ⟨"", "boom", 3⟩ else ⟨"ok", "", 0⟩)
      (fun _ => (1, "t"))).2.2 1 (by decide)
      (by intro j hj; have hj0 : j = 0 := by omega
          subst hj0; rfl)
      (by decide)
  exact h.1.trans (by decide)

/-- Claim C6: starting from the documented invariant (the baseline list is
empty or complete), a `run` whose processes are all quiet leaves exactly
`repetitions` baseline records and no failure; and when the item already
holds exactly `repetitions` results, `run` returns the item unchanged with
no failure, whatever the processes would do. -/
theorem run_populates_and_idempotent (it : Item) (procs : Nat → ProcOutput)
    (times : Nat → Rat × String) :
    (((0 : Int) ≤ it.repetitions) →
      (it.result.length = 0 ∨ (it.result.length : Int) = it.repetitions) →
      (∀ j < it.repetitions.toNat, (procs j).stderr = "") →
      (((it.run procs times).1.result.length : Int) = it.repetitions ∧
        (it.run procs times).2 = none)) ∧
    (((it.result.length : Int) = it.repetitions) → it.run procs times = (it, none)) := by
  constructor
  · intro hr hinv hq
    by_cases hrun : it.hasBeenRun = true
    · have hlen : (it.result.length : Int) = it.repetitions := by
        simpa [Item.hasBeenRun] using hrun
      simp [Item.run, hrun, hlen]
    · rcases hinv with h0 | hfull
      · have hquiet := execFrom_quiet (shlexSplit it.runcode) procs times
          it.repetitions.toNat 0 (by simpa using hq)
        unfold Item.run
        rw [if_neg (by simpa using hrun)]
        constructor
        · simp only [List.length_append, h0, Nat.zero_add, Item.executeNew, hquiet.1]
          exact Int.toNat_of_nonneg hr
        · exact hquiet.2
      · exact absurd (by simpa [Item.hasBeenRun] using hfull) hrun
  · intro hfull
    have hrun : it.hasBeenRun = true := by simpa [Item.hasBeenRun] using hfull
    simp [Item.run, hrun]

/-- Witness for `run_populates_and_idempotent`: a fresh two-repetition item
with quiet processes ends with two baseline records, and a filled item is
left unchanged. -/
theorem run_populates_and_idempotent_witness :
    ((({ repetitions := 2, runcode := "x" } : Item).run
        (fun _ => ⟨"ok", "", 0⟩) (fun _ => (1, "t"))).1.result.length : Int) = 2 ∧
    (({ repetitions := 2, runcode := "x" } : Item).run
        (fun _ => ⟨"ok", "", 0⟩) (fun _ => (1, "t"))).2 = none := by
  have h := (run_populates_and_idempotent { repetitions := 2, runcode := "x" }
      (fun _ => ⟨"ok", "", 0⟩) (fun _ => (1, "t"))).1 (by decide) (Or.inl rfl)
      (fun j hj => rfl)
  exact h

/-! ## Background task sequencer (claim C5) -/

lemma seqOK_runLoop {α ε : Type} [DecidableEq α] (jobs : α → Option ε) :
    ∀ items : List α, seqOK (runLoop jobs items) = true := by
  intro items
  induction items with
  | nil => rfl
  | cons a rest ih =>
    cases h : jobs a with
    | none => simp [runLoop, h, seqOK, ih]
    | some e => simp [runLoop, h, seqOK]

/-- Claim C5: the sequencer runs one job at a time — in every trace a job
starts only after the previous item's completion callback ran — and over
`[A, B, C]` with `A` succeeding and `B` raising, the whole trace is
`[jobStart A, itemDone A, jobStart B, errorCb e]`: the completion callback
fires exactly for `A`, the error callback fires exactly once, no job after
`B` starts, and the queue-done callback never fires. -/
theorem sequencer_error_aborts :
    (∀ (α ε : Type) [DecidableEq α] (jobs : α → Option ε) (items : List α),
      seqOK (runLoop jobs items) = true) ∧
    (∀ (α ε : Type) (jobs : α → Option ε) (A B C : α) (e : ε),
      jobs A = none → jobs B = some e →
      runLoop jobs [A, B, C] =
        [.jobStart A, .itemDone A, .jobStart B, .errorCb e] ∧
      (∀ x, QueueEvent.itemDone x ∈ runLoop jobs [A, B, C] ↔ x = A) ∧
      ((runLoop jobs [A, B, C]).countP
          (fun ev => match ev with | .errorCb _ => true | _ => false) = 1) ∧
      (C ≠ A → C ≠ B → QueueEvent.jobStart C ∉ runLoop jobs [A, B, C]) ∧
      QueueEvent.queueDone ∉ runLoop jobs [A, B, C]) := by
  constructor
  · intro α ε inst jobs items
    exact seqOK_runLoop jobs items
  · intro α ε jobs A B C e hA hB
    have htrace : runLoop jobs [A, B, C] =
        [.jobStart A, .itemDone A, .jobStart B, .errorCb e] := by
      simp [runLoop, hA, hB]
    refine ⟨htrace, ?_, ?_, ?_, ?_⟩
    · intro x
      rw [htrace]
      simp
    · rw [htrace]
      rfl
    · intro hCA hCB
      rw [htrace]
      simp [hCA, hCB]
    · rw [htrace]
      simp

/-- Witness for `sequencer_error_aborts`: queue `[0, 1, 2]` where job `1`
raises `"E"`. -/
theorem sequencer_error_aborts_witness :
    runLoop (fun n : Nat => if n == 1 then some "E" else none) [0, 1, 2] =
      [.jobStart 0, .itemDone 0, .jobStart 1, .errorCb "E"] :=
  (sequencer_error_aborts.2 Nat String
    (fun n => if n == 1 then some "E" else none) 0 1 2 "E" rfl rfl).1

/-! ## Persistence (claims C8, C9, C10) -/

lemma rcEq_refl (a : ResultCommand) : rcEq a a = true := by
  simp [rcEq]

lemma rcListEq_refl (l : List ResultCommand) : rcListEq l l = true := by
  induction l with
  | nil => rfl
  | cons a t ih => simp [rcListEq, rcEq_refl, ih]

lemma itemEq_refl (it : Item) : itemEq it it = true := by
  simp [itemEq, vcEq, rcListEq_refl]

lemma toSaved_toItem (it : Item) (h1 : it.testResult = .NOTRUN)
    (h2 : it.testOutput = []) : (Item.toSaved it).toItem = it := by
  show { it with testResult := .NOTRUN, testOutput := [] } = it
  rw [← h1, ← h2]

lemma checkItems_map_self :
    ∀ (post pre : List Item),
      (∀ x ∈ post, x.testResult = .NOTRUN ∧ x.testOutput = []) →
      checkItems (pre ++ post) (post.map Item.toSaved) pre.length = .ok true := by
  intro post
  induction post with
  | nil => intro pre _; rfl
  | cons it rest ih =>
    intro pre h
    have hidx : (pre ++ it :: rest)[pre.length]? = some it := by
      rw [List.getElem?_append_right (le_refl pre.length)]
      simp
    have hit := h it (List.mem_cons_self it rest)
    have heq : itemEq (Item.toSaved it).toItem it = true := by
      rw [toSaved_toItem it hit.1 hit.2]
      exact itemEq_refl it
    have hrec := ih (pre ++ [it]) (fun x hx => h x (List.mem_cons_of_mem it hx))
    rw [List.append_assoc] at hrec
    simp only [List.singleton_append, List.length_append, List.length_singleton] at hrec
    simp [checkItems, hidx, heq, hrec]

/-- Counterexample to claim C8 as stated: dataclass equality of `Item`
compares the test-only fields too, while the non-export save drops them, so
an item holding a test verdict round-trips unequal and `areItemsSaved`
reports unsaved. -/
theorem save_roundtrip_counterexample :
    areItemsSavedE
        (some (saveItemsToFileModel {} [{ testResult := .OK }]))
        ({} : TestDataFields) [({ testResult := .OK } : Item)] = .ok false := by
  rfl

/-- Claim C8 amended: the save → `areItemsSaved` round trip reports saved
for every metadata record and item list whose items carry no test state
(`testResult = NOTRUN`, `testOutput = []`), the state in which the
non-export save variant loses nothing. -/
theorem save_roundtrip_reports_saved (md : TestDataFields) (items : List Item)
    (h : ∀ it ∈ items, it.testResult = .NOTRUN ∧ it.testOutput = []) :
    areItemsSavedE (some (saveItemsToFileModel md items)) md items = .ok true := by
  show areItemsSavedCore md items ⟨md, items.map Item.toSaved⟩ = .ok true
  have h1 : tdfEq md md = true := by simp [tdfEq]
  simp only [areItemsSavedCore, h1, if_true]
  simpa using checkItems_map_self items [] h

/-- Witness for `save_roundtrip_reports_saved`: the default metadata and a
single default item. -/
theorem save_roundtrip_reports_saved_witness :
    areItemsSavedE (some (saveItemsToFileModel {} [{}])) ({} : TestDataFields)
      [({} : Item)] = .ok true := by
  refine save_roundtrip_reports_saved {} [{}] ?_
  intro it hit
  rw [List.mem_singleton] at hit
  subst hit
  exact ⟨rfl, rfl⟩

/-- Counterexample to claim C9 as stated: on an unreadable file
`areItemsSaved` does not return `false` — the `OSError` raised by `open`
propagates, as nothing in the function catches it. -/
theorem isSaved_unreadable_raises :
    areItemsSavedE none ({} : TestDataFields) [] = .error .ioError := rfl

lemma checkItems_total (items : List Item) :
    ∀ (saved : List SavedItem) (idx : Nat), idx + saved.length ≤ items.length →
      ∃ b, checkItems items saved idx = .ok b := by
  intro saved
  induction saved with
  | nil => intro idx _; exact ⟨true, rfl⟩
  | cons s rest ih =>
    intro idx h
    have hlt : idx < items.length := by
      simp only [List.length_cons] at h
      omega
    by_cases hb : itemEq s.toItem items[idx] = true
    · obtain ⟨b, hbrec⟩ := ih (idx + 1) (by simp only [List.length_cons] at h; omega)
      exact ⟨b, by simp [checkItems, List.getElem?_eq_getElem hlt, hb, hbrec]⟩
    · exact ⟨false, by simp [checkItems, List.getElem?_eq_getElem hlt, hb]⟩

/-- Claim C9 amended: `areItemsSaved` raises (the error propagates) on an
unreadable file; on a readable file it returns a boolean whenever the
in-memory list is at least as long as the file's item array (a shorter list
would make `items[index]` raise). -/
theorem isSaved_readable_boolean :
    (∀ (md : TestDataFields) (items : List Item),
      areItemsSavedE none md items = .error .ioError) ∧
    (∀ (f : SavedFile) (md : TestDataFields) (items : List Item),
      f.items.length ≤ items.length →
      ∃ b, areItemsSavedE (some f) md items = .ok b) := by
  constructor
  · intro md items
    rfl
  · intro f md items hlen
    show ∃ b, areItemsSavedCore md items f = .ok b
    unfold areItemsSavedCore
    by_cases hm : tdfEq md f.meta = true
    · rw [if_pos hm]
      exact checkItems_total items f.items 0 (by omega)
    · exact ⟨false, by rw [if_neg hm]⟩

/-- Witness for `isSaved_readable_boolean` at an empty readable file. -/
theorem isSaved_readable_boolean_witness :
    ∃ b, areItemsSavedE (some ⟨{}, []⟩) ({} : TestDataFields) [] = .ok b :=
  isSaved_readable_boolean.2 ⟨{}, []⟩ {} [] (by decide)

lemma checkItems_append (extra ms : List Item) :
    ∀ (saved : List SavedItem) (idx : Nat),
      checkItems ms saved idx = .ok true →
      checkItems (ms ++ extra) saved idx = .ok true := by
  intro saved
  induction saved with
  | nil => intro idx _; rfl
  | cons s rest ih =>
    intro idx h
    rcases hidx : ms[idx]? with _ | it
    · simp [checkItems, hidx] at h
    · have hlt : idx < ms.length := by
        by_contra hcon
        rw [List.getElem?_eq_none (by omega)] at hidx
        cases hidx
      have hidx2 : (ms ++ extra)[idx]? = some it := by
        rw [List.getElem?_append_left hlt, hidx]
      simp only [checkItems, hidx] at h
      simp only [checkItems, hidx2]
      by_cases hb : itemEq s.toItem it = true
      · rw [if_pos hb] at h ⊢
        exact ih (idx + 1) h
      · rw [if_neg hb] at h
        simp at h

/-- Claim C10: `areItemsSaved` walks only the file's item array, comparing
index-wise, so when it reports saved for `(md, ms)` it reports saved for
any extension `ms ++ extra` of the in-memory list against the same file —
items added after the last save are not detected as a difference. -/
theorem saved_ignores_extra_items (f : SavedFile) (md : TestDataFields)
    (ms extra : List Item)
    (h : areItemsSavedE (some f) md ms = .ok true) :
    areItemsSavedE (some f) md (ms ++ extra) = .ok true := by
  have hcore : areItemsSavedCore md ms f = .ok true := h
  show areItemsSavedCore md (ms ++ extra) f = .ok true
  unfold areItemsSavedCore at hcore ⊢
  by_cases hm : tdfEq md f.meta = true
  · rw [if_pos hm] at hcore ⊢
    exact checkItems_append extra ms f.items 0 hcore
  · rw [if_neg hm] at hcore
    simp at hcore

/-- Witness for `saved_ignores_extra_items`: a saved single-item list with
one item appended afterwards. -/
theorem saved_ignores_extra_items_witness :
    areItemsSavedE (some (saveItemsToFileModel {} [{}])) ({} : TestDataFields)
      ([({} : Item)] ++ [{ id := 7 }]) = .ok true :=
  saved_ignores_extra_items _ _ _ _ (by rfl)
